import Mathlib

/-!
Verification of the confluence-to-markdown-builder core against its
specification.  The definitions below are a shallow embedding of the Python
sources `confluence_to_markdown/builder.py`, `converter.py`, `config.py` and
the data model of `export_parser.py`.  Python dictionaries are modelled as
association lists (insertion order preserved, update-in-place, as CPython
dicts behave), exceptions as `Except`, the filesystem as an explicit
predicate on paths, and `datetime.now()` as an explicit timestamp argument.
-/

namespace C2M

/-! ### Association lists: the model of Python `dict`

`alookup` is `d.get(k)`; `dictInsert` is `d[k] = v` (replaces the value in
place when the key is present, appends otherwise, matching CPython's
insertion-order semantics). -/

def alookup {α : Type} : List (String × α) → String → Option α
  | [], _ => none
  | (k, v) :: rest, key => if k = key then some v else alookup rest key

def dictInsert {α : Type} : List (String × α) → String → α → List (String × α)
  | [], key, v => [(key, v)]
  | (k, w) :: rest, key, v =>
      if k = key then (k, v) :: rest else (k, w) :: dictInsert rest key v

theorem alookup_dictInsert {α : Type} (d : List (String × α)) (k : String)
    (v : α) (k' : String) :
    alookup (dictInsert d k v) k' = if k = k' then some v else alookup d k' := by
  induction d with
  | nil =>
      by_cases h : k = k' <;> simp [dictInsert, alookup, h]
  | cons p rest ih =>
      obtain ⟨ka, va⟩ := p
      by_cases hk : ka = k
      · subst hk
        by_cases h' : ka = k' <;> simp [dictInsert, alookup, h', ih]
      · by_cases h' : ka = k'
        · subst h'
          have hk' : ¬ k = ka := fun h => hk h.symm
          simp [dictInsert, alookup, hk, hk', ih]
        · simp [dictInsert, alookup, hk, h', ih]

/-! ### Slugification

Model of `_slugify` (identical in `builder.py` and `converter.py`):

    text = text.lower()
    text = re.sub(r"[^\w\s-]", "", text)
    text = re.sub(r"[\s_]+", "-", text)
    text = re.sub(r"-+", "-", text)
    return text.strip("-")

The regex classes are modelled over ASCII: `\w` as alphanumeric-or-underscore
and `\s` as whitespace, matching Python on all inputs appearing in this
repository. -/

def isPyWordChar (c : Char) : Bool := c.isAlphanum || c = '_'

def isPySpace (c : Char) : Bool := c.isWhitespace

/-- One pass of `re.sub(r"[\s_]+", "-", ·)`: every maximal run of whitespace
or underscores becomes a single hyphen.  The boolean records whether the
previous character was inside such a run. -/
def subSpaceRuns : Bool → List Char → List Char
  | _, [] => []
  | inRun, c :: cs =>
      if isPySpace c || c = '_' then
        if inRun then subSpaceRuns true cs
        else '-' :: subSpaceRuns true cs
      else c :: subSpaceRuns false cs

/-- One pass of `re.sub(r"-+", "-", ·)`: every maximal run of hyphens becomes
a single hyphen.  The boolean records whether the previous character was a
hyphen. -/
def collapseDashes : Bool → List Char → List Char
  | _, [] => []
  | prevDash, c :: cs =>
      if c = '-' then
        if prevDash then collapseDashes true cs
        else '-' :: collapseDashes true cs
      else c :: collapseDashes false cs

/-- Python `str.strip("-")`: remove leading and trailing hyphens. -/
def stripDashes (l : List Char) : List Char :=
  ((l.dropWhile (fun c => c = '-')).reverse.dropWhile (fun c => c = '-')).reverse

def slugifyChars (l : List Char) : List Char :=
  stripDashes (collapseDashes false (subSpaceRuns false
    ((l.map Char.toLower).filter
      (fun c => isPyWordChar c || isPySpace c || c = '-'))))

def slugify (s : String) : String := String.mk (slugifyChars s.data)

/-- `NoDD a b` holds when `a` and `b` are not both hyphens: the relation whose
`Chain'` closure states a string has no two consecutive hyphens. -/
def NoDD (a b : Char) : Prop := ¬(a = '-' ∧ b = '-')

lemma char_isUpper_iff (c : Char) : c.isUpper = true ↔ 65 ≤ c.toNat ∧ c.toNat ≤ 90 := by
  simp [Char.isUpper, UInt32.le_def, BitVec.le_def, Char.toNat, UInt32.toNat]

lemma char_toNat_ofNat (n : Nat) (h : n.isValidChar) : (Char.ofNat n).toNat = n := by
  rw [Char.ofNat, dif_pos h]; rfl

lemma toLower_of_not_upper (c : Char) (h : c.isUpper = false) : c.toLower = c := by
  rw [Char.toLower]
  have := (char_isUpper_iff c).not
  simp [h] at this
  rw [if_neg]
  omega

lemma isUpper_toLower (c : Char) : c.toLower.isUpper = false := by
  rw [Char.toLower]
  by_cases h : c.toNat ≥ 65 ∧ c.toNat ≤ 90
  · rw [if_pos h]
    have hv : (c.toNat + 32).isValidChar := Or.inl (by omega)
    have ht := char_toNat_ofNat _ hv
    rw [Bool.eq_false_iff]
    intro hu
    have := (char_isUpper_iff _).mp hu
    omega
  · rw [if_neg h]
    rw [Bool.eq_false_iff]
    intro hu
    exact h ((char_isUpper_iff c).mp hu)

lemma mem_subSpaceRuns {c : Char} :
    ∀ (b : Bool) (l : List Char), c ∈ subSpaceRuns b l →
      c = '-' ∨ (c ∈ l ∧ isPySpace c = false ∧ c ≠ '_') := by
  intro b l
  induction l generalizing b with
  | nil => intro h; simp [subSpaceRuns] at h
  | cons a cs ih =>
      intro h
      rw [subSpaceRuns] at h
      by_cases ha : (isPySpace a || a = '_') = true
      · rw [if_pos ha] at h
        cases b with
        | true =>
            rcases ih true h with h1 | h2
            · exact Or.inl h1
            · exact Or.inr ⟨List.mem_cons_of_mem _ h2.1, h2.2⟩
        | false =>
            rw [if_neg Bool.false_ne_true] at h
            simp only [List.mem_cons] at h
            rcases h with h1 | h1
            · exact Or.inl h1
            · rcases ih true h1 with h2 | h3
              · exact Or.inl h2
              · exact Or.inr ⟨List.mem_cons_of_mem _ h3.1, h3.2⟩
      · rw [if_neg ha] at h
        simp only [List.mem_cons] at h
        rcases h with h1 | h1
        · subst h1
          simp only [Bool.or_eq_true, decide_eq_true_eq] at ha
          push_neg at ha
          right
          refine ⟨List.mem_cons_self _ _, ?_, ha.2⟩
          · cases hsp : isPySpace c
            · rfl
            · exact absurd hsp ha.1
        · rcases ih false h1 with h2 | h3
          · exact Or.inl h2
          · exact Or.inr ⟨List.mem_cons_of_mem _ h3.1, h3.2⟩

lemma mem_collapseDashes {c : Char} :
    ∀ (b : Bool) (l : List Char), c ∈ collapseDashes b l → c ∈ l := by
  intro b l
  induction l generalizing b with
  | nil => intro h; simp [collapseDashes] at h
  | cons a cs ih =>
      intro h
      rw [collapseDashes] at h
      by_cases ha : a = '-'
      · rw [if_pos ha] at h
        cases b with
        | true => exact List.mem_cons_of_mem _ (ih true h)
        | false =>
            rw [if_neg Bool.false_ne_true] at h
            simp only [List.mem_cons] at h
            rcases h with h1 | h1
            · simp [ha, h1]
            · exact List.mem_cons_of_mem _ (ih true h1)
      · rw [if_neg ha] at h
        simp only [List.mem_cons] at h
        rcases h with h1 | h1
        · simp [h1]
        · exact List.mem_cons_of_mem _ (ih false h1)

lemma collapseDashes_chain :
    ∀ (l : List Char) (b : Bool),
      List.Chain' NoDD (collapseDashes b l) ∧
      (b = true → (collapseDashes b l).head? ≠ some '-') := by
  intro l
  induction l with
  | nil => intro b; simp [collapseDashes]
  | cons a cs ih =>
      intro b
      rw [collapseDashes]
      by_cases ha : a = '-'
      · rw [if_pos ha]
        cases b with
        | true =>
            refine ⟨(ih true).1, fun _ => (ih true).2 rfl⟩
        | false =>
            rw [if_neg Bool.false_ne_true]
            constructor
            · rw [List.chain'_cons']
              refine ⟨?_, (ih true).1⟩
              intro y hy
              intro hcon
              exact (ih true).2 rfl (by rw [hy, hcon.2])
            · intro h; exact absurd h Bool.false_ne_true
      · rw [if_neg ha]
        constructor
        · rw [List.chain'_cons']
          refine ⟨?_, (ih false).1⟩
          intro y _ hcon
          exact ha hcon.1
        · intro _
          simp only [List.head?_cons]
          intro h; exact ha (Option.some.inj h)

lemma collapseDashes_id :
    ∀ (l : List Char) (b : Bool), List.Chain' NoDD l →
      (b = true → l.head? ≠ some '-') → collapseDashes b l = l := by
  intro l
  induction l with
  | nil => intro b _ _; rfl
  | cons a cs ih =>
      intro b hc hh
      rw [collapseDashes]
      by_cases ha : a = '-'
      · subst ha
        cases b with
        | true =>
            exact absurd (by rw [List.head?_cons]) (hh rfl)
        | false =>
            rw [if_pos rfl, if_neg Bool.false_ne_true]
            congr 1
            rw [List.chain'_cons'] at hc
            refine ih true hc.2 ?_
            intro _ hhead
            rcases hcs : cs.head? with _ | y
            · rw [hcs] at hhead; exact Option.noConfusion hhead
            · rw [hcs] at hhead
              have := hc.1 y hcs
              exact this ⟨rfl, (Option.some.inj hhead)⟩
      · rw [if_neg ha]
        congr 1
        rw [List.chain'_cons'] at hc
        exact ih false hc.2 (fun h => absurd h Bool.false_ne_true)

lemma subSpaceRuns_id :
    ∀ (l : List Char) (b : Bool),
      (∀ c ∈ l, isPySpace c = false ∧ c ≠ '_') → subSpaceRuns b l = l := by
  intro l
  induction l with
  | nil => intro b _; rfl
  | cons a cs ih =>
      intro b h
      rw [subSpaceRuns]
      have ha := h a (List.mem_cons_self _ _)
      rw [if_neg]
      · congr 1
        exact ih false (fun c hc => h c (List.mem_cons_of_mem _ hc))
      · simp [ha.1, ha.2]

lemma map_toLower_id (l : List Char) (h : ∀ c ∈ l, c.isUpper = false) :
    l.map Char.toLower = l := by
  induction l with
  | nil => rfl
  | cons a cs ih =>
      simp only [List.map_cons]
      rw [toLower_of_not_upper a (h a (List.mem_cons_self _ _)),
        ih (fun c hc => h c (List.mem_cons_of_mem _ hc))]

lemma dropWhile_head_false (p : Char → Bool) (l : List Char) :
    ∀ a, (l.dropWhile p).head? = some a → p a = false := by
  induction l with
  | nil => intro a h; simp [List.dropWhile] at h
  | cons c cs ih =>
      intro a h
      rw [List.dropWhile_cons] at h
      by_cases hc : p c = true
      · rw [if_pos hc] at h; exact ih a h
      · rw [if_neg hc] at h
        simp only [List.head?_cons] at h
        rw [← Option.some.inj h]
        exact Bool.eq_false_iff.mpr hc

lemma dropWhile_id (p : Char → Bool) (l : List Char)
    (h : ∀ a, l.head? = some a → p a = false) : l.dropWhile p = l := by
  cases l with
  | nil => rfl
  | cons c cs =>
      rw [List.dropWhile_cons, if_neg]
      have := h c rfl
      simp [this]

lemma chain'_dropWhile {R : Char → Char → Prop} (p : Char → Bool) :
    ∀ (l : List Char), List.Chain' R l → List.Chain' R (l.dropWhile p) := by
  intro l
  induction l with
  | nil => intro h; exact h
  | cons c cs ih =>
      intro h
      rw [List.dropWhile_cons]
      by_cases hc : p c = true
      · rw [if_pos hc]
        exact ih (List.chain'_cons'.mp h).2
      · rw [if_neg hc]
        exact h

lemma chain'_NoDD_reverse (l : List Char) (h : List.Chain' NoDD l) :
    List.Chain' NoDD l.reverse := by
  rw [List.chain'_reverse]
  exact h.imp (fun a b hab hcon => hab ⟨hcon.2, hcon.1⟩)

lemma dropWhile_getLast (p : Char → Bool) (l : List Char)
    (h : l.dropWhile p ≠ []) : (l.dropWhile p).getLast? = l.getLast? := by
  obtain ⟨t, ht⟩ := List.dropWhile_suffix p (l := l)
  calc (l.dropWhile p).getLast?
      = (t ++ l.dropWhile p).getLast? := (List.getLast?_append_of_ne_nil t h).symm
    _ = l.getLast? := by rw [ht]

lemma mem_stripDashes {c : Char} (l : List Char) (h : c ∈ stripDashes l) :
    c ∈ l := by
  rw [stripDashes] at h
  rw [List.mem_reverse] at h
  have h2 := (List.dropWhile_suffix _).subset h
  rw [List.mem_reverse] at h2
  exact (List.dropWhile_suffix _).subset h2

lemma stripDashes_getLast (l : List Char) :
    ∀ a, (stripDashes l).getLast? = some a → a ≠ '-' := by
  intro a h
  rw [stripDashes, List.getLast?_reverse] at h
  have := dropWhile_head_false _ _ _ h
  simp at this
  exact this

lemma stripDashes_head (l : List Char) :
    ∀ a, (stripDashes l).head? = some a → a ≠ '-' := by
  intro a h
  rw [stripDashes, List.head?_reverse] at h
  set s := ((l.dropWhile (fun c => c = '-')).reverse.dropWhile (fun c => c = '-')) with hs
  have hne : s ≠ [] := by
    intro hnil
    rw [hnil] at h
    simp at h
  rw [hs, dropWhile_getLast _ _ (by rw [← hs]; exact hne)] at h
  rw [List.getLast?_reverse] at h
  have := dropWhile_head_false _ _ _ h
  simp at this
  exact this

lemma stripDashes_chain (l : List Char) (h : List.Chain' NoDD l) :
    List.Chain' NoDD (stripDashes l) := by
  rw [stripDashes]
  apply chain'_NoDD_reverse
  apply chain'_dropWhile
  apply chain'_NoDD_reverse
  apply chain'_dropWhile
  exact h

lemma stripDashes_id (l : List Char)
    (h1 : ∀ a, l.head? = some a → a ≠ '-')
    (h2 : ∀ a, l.getLast? = some a → a ≠ '-') : stripDashes l = l := by
  rw [stripDashes]
  have hinner : l.dropWhile (fun c => c = '-') = l :=
    dropWhile_id _ _ (fun a ha => by simp [h1 a ha])
  rw [hinner]
  have houter : l.reverse.dropWhile (fun c => c = '-') = l.reverse :=
    dropWhile_id _ _ (fun a ha => by
      rw [List.head?_reverse] at ha
      simp [h2 a ha])
  rw [houter, List.reverse_reverse]

lemma slugifyChars_chars (l : List Char) :
    ∀ c ∈ slugifyChars l,
      (isPyWordChar c || c = '-') = true ∧ isPySpace c = false ∧ c ≠ '_' ∧
        c.isUpper = false := by
  intro c hc
  rw [slugifyChars] at hc
  have h1 := mem_collapseDashes _ _ (mem_stripDashes _ hc)
  rcases mem_subSpaceRuns _ _ h1 with hdash | ⟨hmem, hsp, hund⟩
  · subst hdash
    refine ⟨by simp, by decide, by decide, by decide⟩
  · have hpred := List.of_mem_filter hmem
    have hinmap := List.mem_of_mem_filter hmem
    rw [List.mem_map] at hinmap
    obtain ⟨a, _, ha⟩ := hinmap
    have hup : c.isUpper = false := by rw [← ha]; exact isUpper_toLower a
    refine ⟨?_, hsp, hund, hup⟩
    simp only [Bool.or_eq_true, decide_eq_true_eq] at hpred ⊢
    rcases hpred with (hw | hs) | hd
    · exact Or.inl hw
    · rw [isPySpace] at hs hsp
      rw [hsp] at hs; exact absurd hs (by simp)
    · exact Or.inr hd

lemma slugifyChars_chain (l : List Char) :
    List.Chain' NoDD (slugifyChars l) := by
  rw [slugifyChars]
  exact stripDashes_chain _ (collapseDashes_chain _ false).1

lemma slugifyChars_head (l : List Char) :
    ∀ a, (slugifyChars l).head? = some a → a ≠ '-' := by
  intro a h
  rw [slugifyChars] at h
  exact stripDashes_head _ a h

lemma slugifyChars_last (l : List Char) :
    ∀ a, (slugifyChars l).getLast? = some a → a ≠ '-' := by
  intro a h
  rw [slugifyChars] at h
  exact stripDashes_getLast _ a h

lemma slugifyChars_idem (l : List Char) :
    slugifyChars (slugifyChars l) = slugifyChars l := by
  have hc := slugifyChars_chars l
  conv_lhs => rw [slugifyChars]
  rw [map_toLower_id _ (fun c h => (hc c h).2.2.2)]
  rw [List.filter_eq_self.mpr (fun c h => by
    have h1 := (hc c h).1
    simp only [Bool.or_eq_true] at h1 ⊢
    rcases h1 with hw | hd
    · exact Or.inl (Or.inl hw)
    · exact Or.inr hd)]
  rw [subSpaceRuns_id _ false (fun c h => ⟨(hc c h).2.1, (hc c h).2.2.1⟩)]
  rw [collapseDashes_id (slugifyChars l) false (slugifyChars_chain l)
    (fun h => absurd h Bool.false_ne_true)]
  rw [stripDashes_id (slugifyChars l) (slugifyChars_head l) (slugifyChars_last l)]



/-! ### Link resolver: relative path computation

Model of `MarkdownConverter._calculate_relative_path`:

    from_parts = from_page.path.split("/")[:-1]  # Directory of source
    to_parts = to_page.path.split("/")
    common = 0
    for i in range(min(len(from_parts), len(to_parts))):
        if from_parts[i] == to_parts[i]: common += 1
        else: break
    up_count = len(from_parts) - common
    rel_parts = [".."] * up_count + to_parts[common:]
    if rel_parts: rel_parts[-1] = self._slugify(rel_parts[-1]) + ".md"
    else: rel_parts = [self._slugify(to_page.title) + ".md"]
    return "/".join(rel_parts)
-/

def commonPrefixLen : List String → List String → Nat
  | x :: xs, y :: ys => if x = y then commonPrefixLen xs ys + 1 else 0
  | _, _ => 0

/-- `rel_parts[-1] = slugify(rel_parts[-1]) + ".md"`: replace the last
element of a list by its slugified form with a `.md` extension. -/
def setLastSlugMd : List String → List String
  | [] => []
  | [x] => [slugify x ++ ".md"]
  | x :: y :: xs => x :: setLastSlugMd (y :: xs)

def calcRelParts (fromParts toParts : List String) (toTitle : String) : String :=
  let common := commonPrefixLen fromParts toParts
  let upCount := fromParts.length - common
  let relParts := List.replicate upCount ".." ++ toParts.drop common
  if relParts.isEmpty then
    String.intercalate "/" [slugify toTitle ++ ".md"]
  else
    String.intercalate "/" (setLastSlugMd relParts)

/-- Python `s.split("/")`: split on every occurrence of the separator,
keeping empty segments (`"".split("/") == [""]`). -/
def splitCharAux (sep : Char) : List Char → List Char → List String
  | [], acc => [String.mk acc.reverse]
  | c :: cs, acc =>
      if c = sep then String.mk acc.reverse :: splitCharAux sep cs []
      else splitCharAux sep cs (c :: acc)

def pathSplit (s : String) : List String := splitCharAux '/' s.data []

def calculateRelativePath (fromPath toPath toTitle : String) : String :=
  calcRelParts ((pathSplit fromPath).dropLast) (pathSplit toPath) toTitle

/-- The spec's description of the same computation, stated literally on the
ancestor-title list `A` of the source and the root-to-target list `B`:
`(len(A) - commonPrefix)` parent-directory segments followed by the segments
of `B` after the common prefix, the final segment slugified with a `.md`
extension, joined with `/`. -/
def specRelFormula (A B : List String) : String :=
  let common := commonPrefixLen A B
  String.intercalate "/"
    (List.replicate (A.length - common) ".." ++
      ((B.drop common).dropLast ++
        [slugify (((B.drop common).getLastD "")) ++ ".md"]))

lemma setLastSlugMd_append (xs : List String) :
    ∀ (ys : List String), ys ≠ [] →
      setLastSlugMd (xs ++ ys) = xs ++ setLastSlugMd ys := by
  induction xs with
  | nil => intro ys _; simp
  | cons a as ih =>
      intro ys hys
      rcases as with _ | ⟨b, bs⟩
      · rcases ys with _ | ⟨y, ws⟩
        · exact absurd rfl hys
        · rfl
      · show a :: setLastSlugMd ((b :: bs) ++ ys) = a :: ((b :: bs) ++ setLastSlugMd ys)
        exact congrArg _ (ih ys hys)

lemma setLastSlugMd_nonempty (ys : List String) (h : ys ≠ []) :
    setLastSlugMd ys = ys.dropLast ++ [slugify (ys.getLastD "") ++ ".md"] := by
  induction ys with
  | nil => exact absurd rfl h
  | cons a as ih =>
      rcases as with _ | ⟨b, bs⟩
      · simp [setLastSlugMd, List.getLastD]
      · rw [setLastSlugMd, ih (by simp)]
        simp [List.getLastD_cons]

/-! ### Configuration (`config.py`)

The settings fields read by the renderer and the build cache.  The
`imports_dir` / `exports_dir` / `logging` fields of the Python `Settings`
are filesystem and logging configuration never consulted by the rendering
or caching logic and are omitted. -/

inductive FilenameStyle where
  | slugify
  | preserve
deriving DecidableEq, Repr

inductive MacroHandling where
  | comment
  | strip
  | preserve_text
deriving DecidableEq, Repr

inductive LinkStyle where
  | relative
  | title_only
deriving DecidableEq, Repr

inductive MissingLinks where
  | preserve
  | comment
  | strip
deriving DecidableEq, Repr

structure LinkSettings where
  internal_link_style : LinkStyle := .relative
  missing_page_links : MissingLinks := .comment
deriving DecidableEq, Repr

structure ContentSettings where
  unknown_macro_handling : MacroHandling := .comment
  include_frontmatter : Bool := true
  frontmatter_fields : List String := ["title", "created_date", "modified_date", "labels"]
  links : LinkSettings := {}
deriving DecidableEq, Repr

structure OutputSettings where
  filename_style : FilenameStyle := .slugify
  preserve_hierarchy : Bool := true
  max_heading_level : Nat := 6
deriving DecidableEq, Repr

structure Settings where
  exclude_pages : List String := []
  exclude_sections : List String := []
  content : ContentSettings := {}
  output : OutputSettings := {}
deriving DecidableEq, Repr

/-! ### Glob matching

Model of `fnmatch.fnmatch` restricted to the `*` and `?` wildcards (the
only ones appearing in this repository's section-exclusion patterns):
`*` matches any run of characters including `/`, `?` any single
character. -/

/-- The `*` case of glob matching: try the rest of the pattern at every
suffix of the string. -/
def globStarLoop (f : List Char → Bool) : List Char → Bool
  | [] => f []
  | c :: cs => f (c :: cs) || globStarLoop f cs

def globMatch : List Char → List Char → Bool
  | [], s => s.isEmpty
  | '*' :: ps, s => globStarLoop (fun t => globMatch ps t) s
  | '?' :: _, [] => false
  | '?' :: ps, _ :: cs => globMatch ps cs
  | _ :: _, [] => false
  | p :: ps, c :: cs => (p = c) && globMatch ps cs

/-- `MarkdownConverter._should_skip_section`: join the heading path with
`/` and test it against every configured exclusion pattern. -/
def shouldSkipSection (patterns : List String) (headingPath : List String) : Bool :=
  patterns.any (fun pat =>
    globMatch pat.data (String.intercalate "/" headingPath).data)

/-! ### Renderer (`converter.py`, `_convert_document` / `_convert_node`)

Top-level document nodes as the section-exclusion state machine sees them:
a heading (with level and flattened text), an unknown macro (with name and
flattened text), or any other node together with the Markdown
`_convert_node` produces for it. -/

inductive Node where
  | heading (level : Nat) (text : String)
  | unknownMacro (name : String) (text : String)
  | other (md : String)
deriving DecidableEq, Repr

def Node.isHeading : Node → Bool
  | .heading _ _ => true
  | _ => false

/-- `MarkdownConverter._handle_unknown_macro`. -/
def unknownMacroOutput (handling : MacroHandling) (name text : String) : String :=
  match handling with
  | .comment => "<!-- Unknown macro: " ++ name ++ " -->\n" ++ text
  | .strip => ""
  | .preserve_text => text

/-- `MarkdownConverter._convert_node` on a top-level node, threading the
`context.unknown_macros` accumulator. -/
def convertNodeOut (handling : MacroHandling) (maxH : Nat) (n : Node)
    (macros : List String) : String × List String :=
  match n with
  | .heading l t => (String.mk (List.replicate (min l maxH) '#') ++ " " ++ t, macros)
  | .other md => (md, macros)
  | .unknownMacro name text =>
      (unknownMacroOutput handling name text, macros ++ [name])

/-- The loop state of `_convert_document`: the running heading path, the
`skip_until_heading_level` register, and the accumulated output parts,
skipped-section paths and unknown-macro names. -/
structure RenderState where
  headingPath : List String
  skip : Option Nat
  parts : List String
  skipped : List String
  macros : List String
deriving DecidableEq, Repr

/-- One iteration of the `for node in root.children` loop of
`_convert_document`. -/
def processNode (pats : List String) (maxH : Nat) (handling : MacroHandling)
    (st : RenderState) (n : Node) : RenderState :=
  match n with
  | .heading level text =>
      let skip1 : Option Nat :=
        match st.skip with
        | some s => if level ≤ s then none else some s
        | none => none
      let hp := st.headingPath.take (level - 1) ++ [text]
      if shouldSkipSection pats hp then
        { st with headingPath := hp, skip := some level,
                  skipped := st.skipped ++ [String.intercalate "/" hp] }
      else
        match skip1 with
        | some s => { st with headingPath := hp, skip := some s }
        | none =>
            let md := (convertNodeOut handling maxH (.heading level text) st.macros).1
            { st with headingPath := hp, skip := none,
                      parts := if md = "" then st.parts else st.parts ++ [md] }
  | n' =>
      match st.skip with
      | some _ => st
      | none =>
          let r := convertNodeOut handling maxH n' st.macros
          { st with macros := r.2,
                    parts := if r.1 = "" then st.parts else st.parts ++ [r.1] }

def initialRenderState : RenderState := ⟨[], none, [], [], []⟩

/-- `MarkdownConverter._convert_document`: fold the loop body over the
top-level nodes; the result is the joined Markdown together with the
accumulated skipped-section paths and unknown-macro names. -/
def convertDocument (pats : List String) (maxH : Nat) (handling : MacroHandling)
    (nodes : List Node) : String × List String × List String :=
  let st := nodes.foldl (processNode pats maxH handling) initialRenderState
  (String.intercalate "\n\n" st.parts, st.skipped, st.macros)

/-! ### Page tree model (`export_parser.py`)

`content_hash` is, in the source, the property `sha256(body_content)`; the
build-cache logic only ever compares digests for equality, so the digest
value is carried as a field here. -/

structure PageNode where
  id : String
  title : String
  body_content : String
  content_hash : String
  created_date : Option String := none
  modified_date : Option String := none
  labels : List String := []
deriving DecidableEq, Repr

/-- `ConfluenceExport`: `name` is `path.name`, `path_str` is `str(path)`,
`pages` is the depth-first `walk_pages()` order (which `all_pages` also
returns), `pages_by_id` the id index. -/
structure ConfluenceExport where
  name : String
  path_str : String
  pages : List PageNode
  pages_by_id : List (String × PageNode)
deriving DecidableEq, Repr

/-! ### Build cache state (`builder.py`) -/

structure PageState where
  title : String
  output_path : String
  content_hash : String
  converted_at : String
deriving DecidableEq, Repr

structure ExportState where
  source_path : String
  source_mtime : String
  source_hash : String
  pages : List (String × PageState) := []
deriving DecidableEq, Repr

structure BuildState where
  version : String := "1.0"
  settings_hash : String := ""
  exports : List (String × ExportState) := []
deriving DecidableEq, Repr

inductive ReportStatus where
  | success
  | partial_
  | failed
deriving DecidableEq, Repr

structure PageConversionReport where
  page_id : String
  page_title : String
  output_file : String
  status : ReportStatus
deriving DecidableEq, Repr

/-- The per-page `should_convert` decision inside
`_determine_pages_to_convert` (the branch taken when the settings
fingerprint is unchanged).  `outputExists` is the filesystem:
`Path(p).exists()`. -/
def shouldConvertPage (outputExists : String → Bool) (force : Bool)
    (exportState : Option ExportState) (page : PageNode) : Bool :=
  if force then true
  else
    match exportState with
    | none => true
    | some es =>
        match alookup es.pages page.id with
        | none => true
        | some ps =>
            if outputExists ps.output_path = false then true
            else decide (page.content_hash ≠ ps.content_hash)

/-- `ConversionBuilder._determine_pages_to_convert`.  `currentSettingsHash`
is the value of `self._hash_settings()`. -/
def determinePagesToConvert (outputExists : String → Bool) (state : BuildState)
    (currentSettingsHash : String) (exp : ConfluenceExport) (force : Bool) :
    List PageNode :=
  if state.settings_hash ≠ currentSettingsHash then exp.pages
  else
    let exportState := alookup state.exports exp.name
    exp.pages.filter (shouldConvertPage outputExists force exportState)

/-- The body of the `for report in reports` loop of
`ConversionBuilder._update_state`: a non-failed report whose page id is in
the export index writes a fresh record for that page. -/
def applyReport (exp : ConfluenceExport) (now : String)
    (pages : List (String × PageState)) (r : PageConversionReport) :
    List (String × PageState) :=
  if r.status ≠ .failed then
    match alookup exp.pages_by_id r.page_id with
    | some page =>
        dictInsert pages page.id
          ⟨page.title, r.output_file, page.content_hash, now⟩
    | none => pages
  else pages

/-- `ConversionBuilder._update_state`.  `now` stands for
`datetime.now().isoformat()` and `currentSettingsHash` for
`self._hash_settings()`. -/
def updateState (st : BuildState) (exp : ConfluenceExport)
    (reports : List PageConversionReport) (now : String)
    (currentSettingsHash : String) : BuildState :=
  let oldEntry :=
    match alookup st.exports exp.name with
    | some es => es
    | none => { source_path := exp.path_str, source_mtime := now,
                source_hash := "" }
  let newEntry := { oldEntry with
    pages := reports.foldl (applyReport exp now) oldEntry.pages }
  { st with exports := dictInsert st.exports exp.name newEntry,
            settings_hash := currentSettingsHash }

/-! ### State persistence (`_save_state` / `_parse_state` / `_load_state`)

The JSON values `json.dumps` writes and `json.loads` returns. -/

inductive Json where
  | str (s : String)
  | obj (fields : List (String × Json))

def jGet : Json → String → Option Json
  | .obj fields, key => alookup fields key
  | _, _ => none

/-- `data.get(key, default)` for a string-valued field. -/
def jGetStr (j : Json) (key default : String) : String :=
  match jGet j key with
  | some (.str s) => s
  | _ => default

/-- `data.get(key, {}).items()` for an object-valued field. -/
def jGetObj (j : Json) (key : String) : List (String × Json) :=
  match jGet j key with
  | some (.obj fields) => fields
  | _ => []

def pageStateJson (ps : PageState) : Json :=
  .obj [("title", .str ps.title), ("output_path", .str ps.output_path),
        ("content_hash", .str ps.content_hash),
        ("converted_at", .str ps.converted_at)]

def exportStateJson (es : ExportState) : Json :=
  .obj [("source_path", .str es.source_path),
        ("source_mtime", .str es.source_mtime),
        ("source_hash", .str es.source_hash),
        ("pages", .obj (es.pages.map (fun p => (p.1, pageStateJson p.2))))]

/-- The `data` dictionary built by `ConversionBuilder._save_state`. -/
def saveStateJson (st : BuildState) : Json :=
  .obj [("version", .str st.version),
        ("settings_hash", .str st.settings_hash),
        ("exports", .obj (st.exports.map (fun p => (p.1, exportStateJson p.2))))]

def parsePageState (j : Json) : PageState :=
  { title := jGetStr j "title" "", output_path := jGetStr j "output_path" "",
    content_hash := jGetStr j "content_hash" "",
    converted_at := jGetStr j "converted_at" "" }

def parseExportState (j : Json) : ExportState :=
  { source_path := jGetStr j "source_path" "",
    source_mtime := jGetStr j "source_mtime" "",
    source_hash := jGetStr j "source_hash" "",
    pages := (jGetObj j "pages").map (fun p => (p.1, parsePageState p.2)) }

/-- `ConversionBuilder._parse_state`. -/
def parseState (j : Json) : BuildState :=
  { version := jGetStr j "version" "1.0",
    settings_hash := jGetStr j "settings_hash" "",
    exports := (jGetObj j "exports").map (fun p => (p.1, parseExportState p.2)) }

/-- `ConversionBuilder._load_state`.  The on-disk condition is `none` when
the state file does not exist, `some (.error e)` when reading or JSON
parsing raises (unreadable file or malformed data), and `some (.ok j)`
when `json.loads` succeeds with value `j`. -/
def loadState (disk : Option (Except String Json)) : BuildState :=
  match disk with
  | none => {}
  | some (.error _) => {}
  | some (.ok j) => parseState j

/-! ### Settings fingerprint (`_hash_settings`)

`_hash_settings` builds

    relevant = {
        "exclude_pages": self.settings.exclude_pages,
        "content": {"include_frontmatter": ...},
        "output": {"filename_style": ...},
    }

and returns `sha256(json.dumps(relevant, sort_keys=True).encode()).hexdigest()[:16]`.
`hashSettingsInput` is that `json.dumps` string (keys sorted:
`content` < `exclude_pages` < `output`); the fingerprint is the first 16
hex digits of its SHA-256 digest and hence a deterministic function of
this string: equal inputs give equal fingerprints. -/

def jsonEscapeChar (c : Char) : String :=
  if c = '\\' then "\\\\" else if c = '"' then "\\\"" else String.mk [c]

def jsonOfString (s : String) : String :=
  "\"" ++ String.join (s.data.map jsonEscapeChar) ++ "\""

def pyBoolStr : Bool → String
  | true => "true"
  | false => "false"

def filenameStyleStr : FilenameStyle → String
  | .slugify => "slugify"
  | .preserve => "preserve"

def hashSettingsInput (s : Settings) : String :=
  "\x7b\"content\": \x7b\"include_frontmatter\": "
    ++ pyBoolStr s.content.include_frontmatter
    ++ "\x7d, \"exclude_pages\": ["
    ++ String.intercalate ", " (s.exclude_pages.map jsonOfString)
    ++ "], \"output\": \x7b\"filename_style\": "
    ++ jsonOfString (filenameStyleStr s.output.filename_style)
    ++ "\x7d\x7d"

/-! ### Page-level conversion entry point (`MarkdownConverter.convert`)

Python exceptions are modelled with `Except`: the `attempt` argument is
the outcome of the `try` block (`self.parser.parse` followed by
`self._convert_document`).  On success it carries the rendered Markdown
and the warnings / skipped-section / unknown-macro lists accumulated in
the `ConversionContext`; on failure it carries the exception message
together with whatever had accumulated before the exception (empty lists
when `parser.parse` itself is what raised). -/

inductive FmValue where
  | str (s : String)
  | list (items : List String)
deriving DecidableEq, Repr

structure ConversionResult where
  markdown : String
  frontmatter : Option (List (String × FmValue)) := none
  warnings : List String := []
  skipped_sections : List String := []
  unknown_macros : List String := []
deriving DecidableEq, Repr

/-- Python `str.strip()`: remove leading and trailing whitespace. -/
def pyStrip (s : String) : String :=
  String.mk
    (((s.data.dropWhile Char.isWhitespace).reverse.dropWhile
      Char.isWhitespace).reverse)

/-- `MarkdownConverter._build_frontmatter`. -/
def buildFrontmatter (s : Settings) (page : PageNode) :
    List (String × FmValue) :=
  (if "title" ∈ s.content.frontmatter_fields
    then [("title", FmValue.str page.title)] else []) ++
  (match page.created_date with
   | some d =>
       if "created_date" ∈ s.content.frontmatter_fields
       then [("created_date", FmValue.str d)] else []
   | none => []) ++
  (match page.modified_date with
   | some d =>
       if "modified_date" ∈ s.content.frontmatter_fields
       then [("modified_date", FmValue.str d)] else []
   | none => []) ++
  (if "labels" ∈ s.content.frontmatter_fields ∧ page.labels ≠ []
    then [("labels", FmValue.list page.labels)] else [])

/-- `MarkdownConverter._format_frontmatter`, per key-value pair. -/
def fmLines (kv : String × FmValue) : List String :=
  match kv.2 with
  | .list items => (kv.1 ++ ":") :: items.map (fun it => "  - " ++ it)
  | .str v =>
      if v.contains '\n' || v.contains ':' then
        [kv.1 ++ ": \"" ++ v ++ "\""]
      else
        [kv.1 ++ ": " ++ v]

def formatFrontmatter (fm : List (String × FmValue)) : String :=
  String.intercalate "\n" (["---"] ++ (fm.map fmLines).flatten ++ ["---"])

/-- The tail of `MarkdownConverter.convert` after the Markdown text is
settled: build optional frontmatter, prepend it when truthy, strip and
add the single trailing newline. -/
def convertFinish (s : Settings) (page : PageNode) (markdown : String)
    (warnings skipped macros : List String) : ConversionResult :=
  let fm := if s.content.include_frontmatter
    then some (buildFrontmatter s page) else none
  let md2 := match fm with
    | some l => if l.isEmpty then markdown
                else formatFrontmatter l ++ "\n" ++ markdown
    | none => markdown
  { markdown := pyStrip md2 ++ "\n", frontmatter := fm, warnings := warnings,
    skipped_sections := skipped, unknown_macros := macros }

/-- `MarkdownConverter.convert`. -/
def convert (s : Settings) (page : PageNode)
    (attempt : Except (String × List String × List String × List String)
      (String × List String × List String × List String)) :
    ConversionResult :=
  if pyStrip page.body_content = "" then
    convertFinish s page "" [] [] []
  else
    match attempt with
    | .ok (md, w, sk, um) => convertFinish s page md w sk um
    | .error (e, w, sk, um) =>
        convertFinish s page
          ("<!-- Parse error: " ++ e ++ " -->\n\n" ++ page.body_content)
          (w ++ ["Parse error: " ++ e]) sk um

/-! ## Theorems -/

lemma pages_roundtrip (l : List (String × PageState)) :
    (l.map (fun p => (p.1, pageStateJson p.2))).map
      (fun q => (q.1, parsePageState q.2)) = l := by
  induction l with
  | nil => rfl
  | cons p rest ih =>
      simp only [List.map_cons]
      rw [ih]
      rfl

lemma parseExport_roundtrip (es : ExportState) :
    parseExportState (exportStateJson es) = es := by
  cases es with
  | mk sp sm sh pages =>
      show ExportState.mk sp sm sh
          ((pages.map (fun p => (p.1, pageStateJson p.2))).map
            (fun q => (q.1, parsePageState q.2))) =
        ExportState.mk sp sm sh pages
      rw [pages_roundtrip]

lemma exports_roundtrip (l : List (String × ExportState)) :
    (l.map (fun p => (p.1, exportStateJson p.2))).map
      (fun q => (q.1, parseExportState q.2)) = l := by
  induction l with
  | nil => rfl
  | cons p rest ih =>
      simp only [List.map_cons]
      rw [ih, parseExport_roundtrip]

/-- C8: build-state persistence round-trips: serializing a `BuildState` the
way `_save_state` encodes it and parsing the result back with
`_parse_state` reproduces the same structure — the same version, settings
fingerprint, and, for every export, the same per-page records. -/
theorem state_roundtrip (st : BuildState) :
    parseState (saveStateJson st) = st := by
  cases st with
  | mk v h exports =>
      show BuildState.mk v h
          ((exports.map (fun p => (p.1, exportStateJson p.2))).map
            (fun q => (q.1, parseExportState q.2))) =
        BuildState.mk v h exports
      rw [exports_roundtrip]

/-- C7: loading persisted build state never fails: when the state file is
absent (`none`) or reading or JSON-decoding raises (`some (.error e)`),
`_load_state` returns the empty `BuildState` (version `"1.0"`, empty
fingerprint, no exports) instead of propagating an error. -/
theorem load_state_failure_empty :
    loadState none = ({} : BuildState) ∧
    (∀ e : String, loadState (some (Except.error e)) = ({} : BuildState)) ∧
    ({} : BuildState) =
      { version := "1.0", settings_hash := "", exports := [] } :=
  ⟨rfl, fun _ => rfl, rfl⟩

/-- C9: an unknown macro node renders, under handling modes `comment`,
`strip` and `preserve_text` respectively, as a comment naming the macro
followed by its flattened text, as the empty string, and as just the
flattened text — and in all three modes the macro name is appended to the
unknown-macro list. -/
theorem unknown_macro_modes (name text : String) (maxH : Nat)
    (macros : List String) :
    (convertNodeOut .comment maxH (.unknownMacro name text) macros).1 =
      "<!-- Unknown macro: " ++ name ++ " -->\n" ++ text ∧
    (convertNodeOut .strip maxH (.unknownMacro name text) macros).1 = "" ∧
    (convertNodeOut .preserve_text maxH (.unknownMacro name text) macros).1 =
      text ∧
    (∀ handling : MacroHandling,
      name ∈ (convertNodeOut handling maxH (.unknownMacro name text) macros).2) :=
  ⟨rfl, rfl, rfl, fun _ =>
    List.mem_append_right _ (List.mem_singleton.mpr rfl)⟩

/-- C4 (code bug): the settings fingerprint input of `_hash_settings`
covers only `exclude_pages`, `content.include_frontmatter` and
`output.filename_style`.  Settings that differ only in the excluded
section-path patterns, the maximum heading level, the internal link
style, the missing-link handling, or the unknown-macro handling — all of
which change rendered output — produce the identical digest input and
hence the identical fingerprint, so no reconversion is forced. -/
theorem hash_settings_ignores_output_settings :
    (({} : Settings) ≠ { exclude_sections := ["**/Change Log"] }) ∧
    hashSettingsInput {} =
      hashSettingsInput { exclude_sections := ["**/Change Log"] } ∧
    hashSettingsInput {} =
      hashSettingsInput { output := { max_heading_level := 3 } } ∧
    hashSettingsInput {} =
      hashSettingsInput
        { content := { links := { internal_link_style := .title_only } } } ∧
    hashSettingsInput {} =
      hashSettingsInput
        { content := { links := { missing_page_links := .strip } } } ∧
    hashSettingsInput {} =
      hashSettingsInput { content := { unknown_macro_handling := .strip } } :=
  ⟨by decide, rfl, rfl, rfl, rfl, rfl⟩

/-- C6: when parsing or rendering the body raises, `convert` still returns
a result: the warnings contain a parse-error warning and (frontmatter
disabled) the Markdown is the raw body wrapped with a comment marker —
one page's failure surfaces as data, never as an exception. -/
theorem convert_parse_error_fallback (s : Settings) (page : PageNode)
    (e : String) (w sk um : List String)
    (hbody : pyStrip page.body_content ≠ "") :
    ("Parse error: " ++ e) ∈
      (convert s page (.error (e, w, sk, um))).warnings ∧
    (s.content.include_frontmatter = false →
      (convert s page (.error (e, w, sk, um))).markdown =
        pyStrip ("<!-- Parse error: " ++ e ++ " -->\n\n" ++ page.body_content)
          ++ "\n") := by
  have hconv : convert s page (.error (e, w, sk, um)) =
      convertFinish s page
        ("<!-- Parse error: " ++ e ++ " -->\n\n" ++ page.body_content)
        (w ++ ["Parse error: " ++ e]) sk um := by
    simp only [convert]
    rw [if_neg hbody]
  rw [hconv]
  constructor
  · exact List.mem_append_right _ (List.mem_singleton.mpr rfl)
  · intro hfm
    simp only [convertFinish, hfm]
    rfl

theorem convert_parse_error_fallback_witness :
    ("Parse error: " ++ "boom") ∈
      (convert { content := { include_frontmatter := false } }
        { id := "1", title := "P", body_content := "<x>", content_hash := "h" }
        (.error ("boom", [], [], []))).warnings ∧
    (convert { content := { include_frontmatter := false } }
        { id := "1", title := "P", body_content := "<x>", content_hash := "h" }
        (.error ("boom", [], [], []))).markdown =
      pyStrip ("<!-- Parse error: " ++ "boom" ++ " -->\n\n" ++ "<x>") ++ "\n" := by
  have h := convert_parse_error_fallback
    { content := { include_frontmatter := false } }
    { id := "1", title := "P", body_content := "<x>", content_hash := "h" }
    "boom" [] [] [] (by decide)
  exact ⟨h.1, h.2 rfl⟩

/-- C2: the link resolver's relative path is `(len(A) - commonPrefix)`
`..` segments followed by the segments of `B` after the common prefix,
the final one slugified with a `.md` extension, joined with `/` (where
`A` is the source page's directory and `B` the root-to-target title
list, and the target contributes at least one segment after the common
prefix); in particular the two worked examples of the spec hold. -/
lemma relative_path_example1 :
    calculateRelativePath "Home/Getting Started/Installation Guide"
      "Home/Architecture Overview" "Architecture Overview" =
      "../architecture-overview.md" := rfl

lemma relative_path_example2 :
    calcRelParts ["Home"] ["Home", "Architecture Overview"]
      "Architecture Overview" = "architecture-overview.md" := rfl

theorem relative_path_spec :
    (∀ (A B : List String) (title : String),
        B.drop (commonPrefixLen A B) ≠ [] →
        calcRelParts A B title = specRelFormula A B) ∧
    calculateRelativePath "Home/Getting Started/Installation Guide"
      "Home/Architecture Overview" "Architecture Overview" =
      "../architecture-overview.md" ∧
    calcRelParts ["Home"] ["Home", "Architecture Overview"]
      "Architecture Overview" = "architecture-overview.md" := by
  refine ⟨?_, relative_path_example1, relative_path_example2⟩
  intro A B title h
  have hne : List.replicate (A.length - commonPrefixLen A B) ".." ++
      B.drop (commonPrefixLen A B) ≠ [] := by
    intro hnil
    exact h (List.append_eq_nil.mp hnil).2
  simp only [calcRelParts, specRelFormula]
  rw [if_neg (fun hemp => hne (List.isEmpty_iff.mp hemp))]
  rw [setLastSlugMd_append _ _ h, setLastSlugMd_nonempty _ h]

theorem relative_path_spec_witness :
    calcRelParts ["Home", "X"] ["Home", "Y"] "Y" =
      specRelFormula ["Home", "X"] ["Home", "Y"] :=
  relative_path_spec.1 ["Home", "X"] ["Home", "Y"] "Y" (by decide)

lemma processNode_skipping_not_heading_le (pats : List String) (maxH : Nat)
    (handling : MacroHandling) (st : RenderState) (n : Node) (s : Nat)
    (hskip : st.skip = some s)
    (hn : ∀ l t, n = Node.heading l t → s < l) :
    (processNode pats maxH handling st n).parts = st.parts := by
  cases n with
  | heading l t =>
      have hlt : s < l := hn l t rfl
      by_cases hss :
          shouldSkipSection pats (st.headingPath.take (l - 1) ++ [t]) = true
      · simp [processNode, hskip, hss]
      · simp [processNode, hskip, hss, Nat.not_le.mpr hlt]
  | unknownMacro a b => simp [processNode, hskip]
  | other md => simp [processNode, hskip]

lemma processNode_matched_heading (pats : List String) (maxH : Nat)
    (handling : MacroHandling) (st : RenderState) (l : Nat) (t : String)
    (hss : shouldSkipSection pats (st.headingPath.take (l - 1) ++ [t]) = true) :
    (processNode pats maxH handling st (.heading l t)).parts = st.parts ∧
    (processNode pats maxH handling st (.heading l t)).skipped =
      st.skipped ++ [String.intercalate "/" (st.headingPath.take (l - 1) ++ [t])] ∧
    (processNode pats maxH handling st (.heading l t)).skip = some l := by
  refine ⟨?_, ?_, ?_⟩ <;> simp [processNode, hss]

lemma section_exclusion_example :
    convertDocument ["**/Change Log"] 6 .comment
      [.heading 1 "Intro", .other "Welcome.", .heading 2 "Change Log",
        .other "Old news."] =
      ("# Intro\n\nWelcome.", ["Intro/Change Log"], []) := rfl

lemma processNode_not_heading_active (pats : List String) (maxH : Nat)
    (handling : MacroHandling) (st : RenderState) (n : Node)
    (hskip : st.skip = none) (hn : n.isHeading = false) :
    processNode pats maxH handling st n =
      { st with macros := (convertNodeOut handling maxH n st.macros).2,
                parts :=
                  if (convertNodeOut handling maxH n st.macros).1 = ""
                  then st.parts
                  else st.parts ++ [(convertNodeOut handling maxH n st.macros).1] } := by
  cases n with
  | heading l t => simp [Node.isHeading] at hn
  | unknownMacro a b => simp [processNode, hskip]
  | other md => simp [processNode, hskip]

lemma foldl_no_headings (pats pats2 : List String) (maxH : Nat)
    (handling : MacroHandling) :
    ∀ (nodes : List Node) (st : RenderState), st.skip = none →
      (∀ n ∈ nodes, n.isHeading = false) →
      nodes.foldl (processNode pats maxH handling) st =
        nodes.foldl (processNode pats2 maxH handling) st ∧
      (nodes.foldl (processNode pats maxH handling) st).skipped = st.skipped := by
  intro nodes
  induction nodes with
  | nil => intro st _ _; exact ⟨rfl, rfl⟩
  | cons n ns ih =>
      intro st hskip hnh
      have hn := hnh n (List.mem_cons_self _ _)
      have h1 := processNode_not_heading_active pats maxH handling st n hskip hn
      have h2 := processNode_not_heading_active pats2 maxH handling st n hskip hn
      simp only [List.foldl_cons]
      rw [h1, h2]
      exact ih _ hskip (fun m hm => hnh m (List.mem_cons_of_mem _ hm))

/-- C3: the section-exclusion state machine: (1) while in `Skipping(s)`,
processing a node emits nothing unless the node is a heading at level
`≤ s` — in particular no non-heading node and no deeper heading is ever
emitted while skipping; (2) a heading whose joined heading path matches a
configured exclusion pattern emits nothing itself, appends that path to
the skipped-sections list, and moves the machine to `Skipping` at its
level; (3) the spec's worked example: heading `Intro` followed by heading
`Change Log` under pattern `**/Change Log` renders `Intro`'s content,
omits everything under `Change Log`, and reports `Intro/Change Log`;
(4) a document with no headings is never subject to skipping: its output
is independent of the exclusion patterns and its skipped list is empty. -/
theorem section_exclusion_machine :
    (∀ (pats : List String) (maxH : Nat) (handling : MacroHandling)
        (st : RenderState) (n : Node) (s : Nat),
        st.skip = some s → (∀ l t, n = Node.heading l t → s < l) →
        (processNode pats maxH handling st n).parts = st.parts) ∧
    (∀ (pats : List String) (maxH : Nat) (handling : MacroHandling)
        (st : RenderState) (l : Nat) (t : String),
        shouldSkipSection pats (st.headingPath.take (l - 1) ++ [t]) = true →
        (processNode pats maxH handling st (.heading l t)).parts = st.parts ∧
        (processNode pats maxH handling st (.heading l t)).skipped =
          st.skipped ++
            [String.intercalate "/" (st.headingPath.take (l - 1) ++ [t])] ∧
        (processNode pats maxH handling st (.heading l t)).skip = some l) ∧
    convertDocument ["**/Change Log"] 6 .comment
      [.heading 1 "Intro", .other "Welcome.", .heading 2 "Change Log",
        .other "Old news."] =
      ("# Intro\n\nWelcome.", ["Intro/Change Log"], []) ∧
    (∀ (pats pats2 : List String) (maxH : Nat) (handling : MacroHandling)
        (nodes : List Node),
        (∀ n ∈ nodes, n.isHeading = false) →
        convertDocument pats maxH handling nodes =
          convertDocument pats2 maxH handling nodes ∧
        (convertDocument pats maxH handling nodes).2.1 = []) := by
  refine ⟨processNode_skipping_not_heading_le, processNode_matched_heading,
    section_exclusion_example, ?_⟩
  intro pats pats2 maxH handling nodes hnh
  have h := foldl_no_headings pats pats2 maxH handling nodes initialRenderState
    rfl hnh
  constructor
  · rw [convertDocument, convertDocument, h.1]
  · rw [convertDocument]
    exact h.2

theorem section_exclusion_machine_witness :
    (processNode ["*"] 6 .comment
      { headingPath := ["A"], skip := some 2, parts := ["x"], skipped := [],
        macros := [] } (.other "y")).parts = ["x"] :=
  section_exclusion_machine.1 ["*"] 6 .comment
    { headingPath := ["A"], skip := some 2, parts := ["x"], skipped := [],
      macros := [] } (.other "y") 2 rfl
    (fun _ _ h => Node.noConfusion h)

/-- The claim's page-selection condition: a page requires conversion iff
force is set, or the stored fingerprint differs, or the export has no
cache entry, or the page id has no record, or the recorded output path no
longer exists, or the content hash changed. -/
def pageNeedsConversion (outputExists : String → Bool) (state : BuildState)
    (currentSettingsHash : String) (exp : ConfluenceExport) (force : Bool)
    (page : PageNode) : Prop :=
  force = true ∨ state.settings_hash ≠ currentSettingsHash ∨
  match alookup state.exports exp.name with
  | none => True
  | some es =>
      match alookup es.pages page.id with
      | none => True
      | some ps =>
          outputExists ps.output_path = false ∨
            page.content_hash ≠ ps.content_hash

lemma shouldConvertPage_iff (oe : String → Bool) (force : Bool)
    (es : Option ExportState) (page : PageNode) :
    shouldConvertPage oe force es page = true ↔
      (force = true ∨
        match es with
        | none => True
        | some es' =>
            match alookup es'.pages page.id with
            | none => True
            | some ps =>
                oe ps.output_path = false ∨
                  page.content_hash ≠ ps.content_hash) := by
  cases force with
  | true => simp [shouldConvertPage]
  | false =>
      cases es with
      | none => simp [shouldConvertPage]
      | some es' =>
          cases hps : alookup es'.pages page.id with
          | none => simp [shouldConvertPage, hps]
          | some ps =>
              cases hoe : oe ps.output_path with
              | false => simp [shouldConvertPage, hps, hoe]
              | true => simp [shouldConvertPage, hps, hoe]

/-- C1: a page of the export is selected by `_determine_pages_to_convert`
iff the claim's six-way disjunction holds for it; when the fingerprint
changed, the whole page list is returned; and when no page satisfies any
of the conditions the selection is empty. -/
theorem determine_pages_iff (outputExists : String → Bool)
    (state : BuildState) (curHash : String) (exp : ConfluenceExport)
    (force : Bool) :
    (∀ page ∈ exp.pages,
      (page ∈ determinePagesToConvert outputExists state curHash exp force ↔
        pageNeedsConversion outputExists state curHash exp force page)) ∧
    (state.settings_hash ≠ curHash →
      determinePagesToConvert outputExists state curHash exp force =
        exp.pages) ∧
    ((∀ page ∈ exp.pages,
        ¬ pageNeedsConversion outputExists state curHash exp force page) →
      determinePagesToConvert outputExists state curHash exp force = []) := by
  refine ⟨?_, ?_, ?_⟩
  · intro page hmem
    by_cases hs : state.settings_hash = curHash
    · rw [determinePagesToConvert, if_neg (fun hne => hne hs)]
      rw [List.mem_filter]
      rw [shouldConvertPage_iff]
      rw [pageNeedsConversion]
      constructor
      · rintro ⟨_, hf | hrest⟩
        · exact Or.inl hf
        · exact Or.inr (Or.inr hrest)
      · rintro (hf | hne | hrest)
        · exact ⟨hmem, Or.inl hf⟩
        · exact absurd hs hne
        · exact ⟨hmem, Or.inr hrest⟩
    · rw [determinePagesToConvert, if_pos hs]
      constructor
      · intro _
        exact Or.inr (Or.inl hs)
      · intro _
        exact hmem
  · intro hs
    rw [determinePagesToConvert, if_pos hs]
  · intro hnone
    by_cases hs : state.settings_hash = curHash
    · rw [determinePagesToConvert, if_neg (fun hne => hne hs)]
      rw [List.filter_eq_nil_iff]
      intro page hmem hpred
      apply hnone page hmem
      rw [pageNeedsConversion]
      rcases (shouldConvertPage_iff outputExists force
          (alookup state.exports exp.name) page).mp hpred with hf | hrest
      · exact Or.inl hf
      · exact Or.inr (Or.inr hrest)
    · rw [determinePagesToConvert, if_pos hs]
      rw [List.eq_nil_iff_forall_not_mem]
      intro page hmem
      exact hnone page hmem (Or.inr (Or.inl hs))

def witnessPage : PageNode :=
  { id := "1", title := "T", body_content := "b", content_hash := "c" }

def witnessExport : ConfluenceExport :=
  { name := "e", path_str := "/e", pages := [witnessPage],
    pages_by_id := [("1", witnessPage)] }

theorem determine_pages_iff_witness :
    determinePagesToConvert (fun _ => true) {} "h" witnessExport false =
      [witnessPage] :=
  (determine_pages_iff (fun _ => true) {} "h" witnessExport false).2.1
    (by decide)


/-- A report qualifies to write a record for page id `pid`: it did not
fail, it is a report for `pid`, and `pid` is present in the export's
page index. -/
def qualifiesFor (exp : ConfluenceExport) (pid : String)
    (r : PageConversionReport) : Bool :=
  decide (r.status ≠ .failed) && decide (r.page_id = pid) &&
    (alookup exp.pages_by_id pid).isSome

/-- The last qualifying report for `pid` in the report list (later
reports overwrite earlier records). -/
def lastQualified (exp : ConfluenceExport) (pid : String) :
    List PageConversionReport → Option PageConversionReport
  | [] => none
  | r :: rs =>
      match lastQualified exp pid rs with
      | some x => some x
      | none => if qualifiesFor exp pid r then some r else none

lemma qualifiesFor_spec (exp : ConfluenceExport) (pid : String)
    (r : PageConversionReport) (h : qualifiesFor exp pid r = true) :
    r.status ≠ .failed ∧ r.page_id = pid ∧
      (alookup exp.pages_by_id pid).isSome = true := by
  rw [qualifiesFor] at h
  simp only [Bool.and_eq_true, decide_eq_true_eq] at h
  exact ⟨h.1.1, h.1.2, h.2⟩

lemma lastQualified_isSome (exp : ConfluenceExport) (pid : String) :
    ∀ (reports : List PageConversionReport) (x : PageConversionReport),
      lastQualified exp pid reports = some x →
      (alookup exp.pages_by_id pid).isSome = true := by
  intro reports
  induction reports with
  | nil => intro x h; exact Option.noConfusion h
  | cons r rs ih =>
      intro x h
      rw [lastQualified] at h
      cases hrs : lastQualified exp pid rs with
      | some y => exact ih y hrs
      | none =>
          rw [hrs] at h
          by_cases hq : qualifiesFor exp pid r = true
          · exact (qualifiesFor_spec exp pid r hq).2.2
          · rw [if_neg hq] at h
            exact Option.noConfusion h

lemma alookup_applyReport_other (exp : ConfluenceExport) (now : String)
    (pages : List (String × PageState)) (r : PageConversionReport)
    (pid : String)
    (hidx : ∀ k p, alookup exp.pages_by_id k = some p → p.id = k)
    (hq : qualifiesFor exp pid r = false) :
    alookup (applyReport exp now pages r) pid = alookup pages pid := by
  rw [applyReport]
  by_cases hst : r.status ≠ ReportStatus.failed
  · rw [if_pos hst]
    cases hl : alookup exp.pages_by_id r.page_id with
    | none => rfl
    | some page =>
        rw [alookup_dictInsert]
        rw [if_neg]
        intro hkey
        have hpid : page.id = r.page_id := hidx _ _ hl
        have hrpid : r.page_id = pid := by rw [← hkey, hpid]
        rw [qualifiesFor] at hq
        rw [Bool.eq_false_iff] at hq
        apply hq
        simp only [Bool.and_eq_true, decide_eq_true_eq]
        refine ⟨⟨hst, hrpid⟩, ?_⟩
        rw [← hrpid, hl]
        rfl
  · rw [if_neg hst]

lemma alookup_foldl_applyReport (exp : ConfluenceExport) (now : String)
    (hidx : ∀ k p, alookup exp.pages_by_id k = some p → p.id = k) :
    ∀ (reports : List PageConversionReport)
      (pages : List (String × PageState)) (pid : String),
      alookup (reports.foldl (applyReport exp now) pages) pid =
        match lastQualified exp pid reports, alookup exp.pages_by_id pid with
        | some r, some page =>
            some ⟨page.title, r.output_file, page.content_hash, now⟩
        | _, _ => alookup pages pid := by
  intro reports
  induction reports with
  | nil => intro pages pid; rfl
  | cons r rs ih =>
      intro pages pid
      simp only [List.foldl_cons]
      rw [ih]
      cases hrs : lastQualified exp pid rs with
      | some x =>
          have hsome := lastQualified_isSome exp pid rs x hrs
          have hcons : lastQualified exp pid (r :: rs) = some x := by
            rw [lastQualified, hrs]
          rw [hcons]
          cases hl : alookup exp.pages_by_id pid with
          | none => rw [hl] at hsome; exact Bool.noConfusion hsome
          | some page => rfl
      | none =>
          by_cases hq : qualifiesFor exp pid r = true
          · have hcons : lastQualified exp pid (r :: rs) = some r := by
              rw [lastQualified, hrs, if_pos hq]
            rw [hcons]
            obtain ⟨hst, hrpid, hsome⟩ := qualifiesFor_spec exp pid r hq
            cases hl : alookup exp.pages_by_id pid with
            | none => rw [hl] at hsome; exact Bool.noConfusion hsome
            | some page =>
                show alookup (applyReport exp now pages r) pid =
                  some ⟨page.title, r.output_file, page.content_hash, now⟩
                rw [applyReport, if_pos hst, hrpid, hl]
                rw [alookup_dictInsert, if_pos (hidx pid page hl)]
          · have hcons : lastQualified exp pid (r :: rs) = none := by
              rw [lastQualified, hrs, if_neg hq]
            rw [hcons]
            show alookup (applyReport exp now pages r) pid = alookup pages pid
            exact alookup_applyReport_other exp now pages r pid hidx
              (Bool.eq_false_iff.mpr hq)

/-- C5 counterexample: `_update_state` does not write a record for every
non-failed report: a successful report whose page id (`"ghost"`) is
absent from the export's page index writes nothing, leaving the export's
page records empty. -/
theorem update_state_ghost_report_counterexample :
    ReportStatus.success ≠ ReportStatus.failed ∧
    updateState {}
        { name := "e", path_str := "/e", pages := [], pages_by_id := [] }
        [{ page_id := "ghost", page_title := "Ghost",
             output_file := "g.md", status := .success }] "t0" "h" =
      { version := "1.0", settings_hash := "h",
        exports := [("e", { source_path := "/e", source_mtime := "t0",
                            source_hash := "", pages := [] })] } :=
  ⟨by decide, by decide⟩

/-- C5 (amended): after `_update_state`, the export's entry holds, for
every page id, the record written by the last non-failed report for a
page present in the export's index (title and content hash from the
export's page, output path from the report, timestamp `now`); page ids
with only failed reports, with no report, or absent from the index keep
their previous record. -/
theorem update_state_records (st : BuildState) (exp : ConfluenceExport)
    (reports : List PageConversionReport) (now curHash : String)
    (hidx : ∀ k p, alookup exp.pages_by_id k = some p → p.id = k) :
    ∃ es',
      alookup (updateState st exp reports now curHash).exports exp.name =
        some es' ∧
      ∀ pid,
        alookup es'.pages pid =
          match lastQualified exp pid reports,
              alookup exp.pages_by_id pid with
          | some r, some page =>
              some ⟨page.title, r.output_file, page.content_hash, now⟩
          | _, _ =>
              alookup
                (match alookup st.exports exp.name with
                 | some es => es.pages
                 | none => []) pid := by
  cases hx : alookup st.exports exp.name with
  | some es =>
      refine ⟨ExportState.mk es.source_path es.source_mtime es.source_hash
        (reports.foldl (applyReport exp now) es.pages), ?_, ?_⟩
      · simp only [updateState, hx]
        rw [alookup_dictInsert, if_pos rfl]
      · intro pid
        rw [alookup_foldl_applyReport exp now hidx]
  | none =>
      refine ⟨ExportState.mk exp.path_str now ""
        (reports.foldl (applyReport exp now) []), ?_, ?_⟩
      · simp only [updateState, hx]
        rw [alookup_dictInsert, if_pos rfl]
      · intro pid
        rw [alookup_foldl_applyReport exp now hidx]

theorem update_state_records_witness :
    ∃ es',
      alookup (updateState {} witnessExport [] "t" "h").exports
        witnessExport.name = some es' ∧
      ∀ pid,
        alookup es'.pages pid =
          match lastQualified witnessExport pid [],
              alookup witnessExport.pages_by_id pid with
          | some r, some page =>
              some ⟨page.title, r.output_file, page.content_hash, "t"⟩
          | _, _ =>
              alookup
                (match alookup ({} : BuildState).exports witnessExport.name with
                 | some es => es.pages
                 | none => []) pid :=
  update_state_records {} witnessExport [] "t" "h" (by
    intro k p h
    by_cases hk : ("1" : String) = k
    · rw [witnessExport] at h
      simp only [alookup, if_pos hk] at h
      rw [← Option.some.inj h, ← hk]
      rfl
    · rw [witnessExport] at h
      simp only [alookup, if_neg hk] at h
      exact Option.noConfusion h)

/-- C10: `_slugify` (the identical helper in `builder.py` and
`converter.py`) is idempotent, and its output contains no uppercase
letter, no whitespace, no underscore, no two consecutive hyphens, and no
leading or trailing hyphen. -/
theorem slugify_idempotent_normalized (s : String) :
    slugify (slugify s) = slugify s ∧
    (∀ c ∈ (slugify s).data,
        c.isUpper = false ∧ c.isWhitespace = false ∧ c ≠ '_') ∧
    List.Chain' NoDD (slugify s).data ∧
    (∀ a, (slugify s).data.head? = some a → a ≠ '-') ∧
    (∀ a, (slugify s).data.getLast? = some a → a ≠ '-') := by
  refine ⟨?_, ?_, ?_, ?_, ?_⟩
  · show String.mk (slugifyChars (slugifyChars s.data)) =
      String.mk (slugifyChars s.data)
    rw [slugifyChars_idem]
  · intro c hcm
    have h := slugifyChars_chars s.data c hcm
    exact ⟨h.2.2.2, h.2.1, h.2.2.1⟩
  · exact slugifyChars_chain _
  · exact slugifyChars_head _
  · exact slugifyChars_last _

theorem load_state_failure_empty_witness :
    loadState (some (Except.error "corrupt")) = ({} : BuildState) :=
  load_state_failure_empty.2.1 "corrupt"

def witnessBuildState : BuildState :=
  { version := "1.0", settings_hash := "h",
    exports := [("e", { source_path := "/e", source_mtime := "t",
                        source_hash := "x",
                        pages := [("1", { title := "T", output_path := "o",
                                          content_hash := "c",
                                          converted_at := "ts" })] })] }

theorem state_roundtrip_witness :
    parseState (saveStateJson witnessBuildState) = witnessBuildState :=
  state_roundtrip witnessBuildState

theorem unknown_macro_modes_witness :
    (convertNodeOut .comment 6 (.unknownMacro "jira" "J") []).1 =
      "<!-- Unknown macro: " ++ "jira" ++ " -->\n" ++ "J" ∧
    (convertNodeOut .strip 6 (.unknownMacro "jira" "J") []).1 = "" ∧
    (convertNodeOut .preserve_text 6 (.unknownMacro "jira" "J") []).1 =
      "J" ∧
    (∀ handling : MacroHandling,
      "jira" ∈ (convertNodeOut handling 6 (.unknownMacro "jira" "J") []).2) :=
  unknown_macro_modes "jira" "J" 6 []

theorem slugify_idempotent_normalized_witness :
    slugify (slugify "My Page_Title!") = slugify "My Page_Title!" ∧
    (∀ c ∈ (slugify "My Page_Title!").data,
        c.isUpper = false ∧ c.isWhitespace = false ∧ c ≠ '_') ∧
    List.Chain' NoDD (slugify "My Page_Title!").data ∧
    (∀ a, (slugify "My Page_Title!").data.head? = some a → a ≠ '-') ∧
    (∀ a, (slugify "My Page_Title!").data.getLast? = some a → a ≠ '-') :=
  slugify_idempotent_normalized "My Page_Title!"

end C2M
